import Mathlib

/-!
Shallow embedding of `src/prompt-merge.py` and verification of its
specification claims.

Python strings are modelled as `String` where only comparison and path
handling matter, and as `List Char` (sequences of code points) where the
code iterates over characters and lines.  Python's `%` on integers with a
positive modulus agrees with Lean's `Int.emod`, so the cursor arithmetic is
embedded over `Int`.
-/

namespace PromptMerge

/-- One discovered template, as built by `get_all_templates`
(`src/prompt-merge.py`, lines 45-52). -/
structure TemplateItem where
  rel_path : String
  title : List Char
  description : List Char
  extendsNote : Option (List Char)
  is_base : Bool
deriving DecidableEq

/-! ## Selection state machine (`interactive_select`, lines 77-145) -/

/-- The mutable state of `interactive_select`: the list `selected` of
per-item flags and the integer cursor `current`. -/
structure SelState where
  current : Int
  selected : List Bool
deriving DecidableEq

/-- `current = (current + 1) % len(templates)` (line 124 / 128). -/
def downMove (n : Nat) (c : Int) : Int := (c + 1) % (n : Int)

/-- `current = (current - 1) % len(templates)` (line 122 / 126);
Python's `%` on a positive modulus is Euclidean, like `Int.emod`. -/
def upMove (n : Nat) (c : Int) : Int := (c - 1) % (n : Int)

/-- `selected[current] = not selected[current]` (line 131). -/
def toggleAt (i : Nat) (sel : List Bool) : List Bool :=
  sel.set i (! sel.getD i false)

/-- Outcome of the `while True` read loop: `confirmed` via Enter (`break`,
line 133), `cancelled` via `q`/Ctrl-C (`return []`, line 137), or
`blocked` when the input byte stream is exhausted (a real terminal would
block on `sys.stdin.read(1)`). -/
inductive LoopResult where
  | confirmed (sel : List Bool)
  | cancelled
  | blocked (st : SelState)
deriving DecidableEq

/-- The read loop of `interactive_select` (lines 112-137), one byte at a
time, including the three-byte escape-sequence handling of lines 118-125. -/
def selLoop (n : Nat) : List Char → SelState → LoopResult
  | [], st => .blocked st
  | c :: rest, st =>
    if c = '\x1b' then
      match rest with
      | [] => .blocked st
      | c2 :: rest2 =>
        if c2 = '[' then
          match rest2 with
          | [] => .blocked st
          | c3 :: rest3 =>
            if c3 = 'A' then
              selLoop n rest3 { st with current := upMove n st.current }
            else if c3 = 'B' then
              selLoop n rest3 { st with current := downMove n st.current }
            else
              selLoop n rest3 st
        else
          selLoop n rest2 st
    else if c = 'k' then
      selLoop n rest { st with current := upMove n st.current }
    else if c = 'j' then
      selLoop n rest { st with current := downMove n st.current }
    else if c = ' ' then
      selLoop n rest { st with selected := toggleAt st.current.toNat st.selected }
    else if c = '\r' ∨ c = '\n' then
      .confirmed st.selected
    else if c = 'q' ∨ c = '\x03' then
      .cancelled
    else
      selLoop n rest st

/-- `[t for i, t in enumerate(templates) if selected[i]]` (line 145). -/
def selectedItems (templates : List TemplateItem) (sel : List Bool) : List TemplateItem :=
  (templates.enum.filter (fun p => sel.getD p.1 false)).map (fun p => p.2)

/-- Initial state of `interactive_select` (lines 79-80): all flags false,
cursor at 0. -/
def initState (templates : List TemplateItem) : SelState :=
  ⟨0, List.replicate templates.length false⟩

/-- `interactive_select` as a function of the byte stream: `some` of the
returned list on confirm or cancel, `none` when the stream runs dry while
the loop is still running. -/
def interactive_select (templates : List TemplateItem) (bytes : List Char) :
    Option (List TemplateItem) :=
  match selLoop templates.length bytes (initState templates) with
  | .confirmed sel => some (selectedItems templates sel)
  | .cancelled => some []
  | .blocked _ => none

/-! ## Key events

A key event is a recognized byte group of the input grammar, so that claims
stated over key events can be transported to the byte-level loop. -/

/-- A single non-terminating key event: the two encodings of each cursor
move, the Space toggle, or an unrecognized single byte. -/
inductive Key where
  | upArrow
  | keyK
  | downArrow
  | keyJ
  | space
  | other (c : Char)
deriving DecidableEq

/-- The bytes the terminal delivers for a key event. -/
def Key.bytes : Key → List Char
  | .upArrow => ['\x1b', '[', 'A']
  | .downArrow => ['\x1b', '[', 'B']
  | .keyK => ['k']
  | .keyJ => ['j']
  | .space => [' ']
  | .other c => [c]

/-- A key event is well formed when an `other` byte is outside the
recognized alphabet (so it is neither terminating nor a move/toggle). -/
def Key.ok : Key → Bool
  | .other c => !(['\x1b', 'k', 'j', ' ', '\r', '\n', 'q', '\x03'].contains c)
  | _ => true

/-- The state transition a single key event performs (spec §4.3). -/
def Key.apply (n : Nat) : Key → SelState → SelState
  | .upArrow, st => { st with current := upMove n st.current }
  | .keyK, st => { st with current := upMove n st.current }
  | .downArrow, st => { st with current := downMove n st.current }
  | .keyJ, st => { st with current := downMove n st.current }
  | .space, st => { st with selected := toggleAt st.current.toNat st.selected }
  | .other _, st => st

/-- Concatenated byte encoding of a sequence of key events. -/
def encodeKeys : List Key → List Char
  | [] => []
  | k :: ks => k.bytes ++ encodeKeys ks

/-- Folding the per-key transition over a sequence of key events. -/
def runKeys (n : Nat) (ks : List Key) (st : SelState) : SelState :=
  ks.foldl (fun s k => Key.apply n k s) st

theorem selLoop_key (n : Nat) (k : Key) (hk : k.ok = true) (rest : List Char)
    (st : SelState) :
    selLoop n (k.bytes ++ rest) st = selLoop n rest (k.apply n st) := by
  cases k with
  | upArrow => rw [Key.bytes, List.cons_append, selLoop.eq_def]; simp [Key.apply]
  | keyK => rw [Key.bytes, List.cons_append, selLoop.eq_def]; simp [Key.apply]
  | downArrow => rw [Key.bytes, List.cons_append, selLoop.eq_def]; simp [Key.apply]
  | keyJ => rw [Key.bytes, List.cons_append, selLoop.eq_def]; simp [Key.apply]
  | space => rw [Key.bytes, List.cons_append, selLoop.eq_def]; simp [Key.apply]
  | other c =>
    simp only [Key.ok, List.contains_cons, Bool.not_eq_true', Bool.or_eq_false_iff,
      beq_eq_false_iff_ne, ne_eq, List.contains_nil, Bool.or_false] at hk
    obtain ⟨h1, h2, h3, h4, h5, h6, h7, h8⟩ := hk
    rw [Key.bytes, List.cons_append, selLoop.eq_def]
    simp [Key.apply, h1, h2, h3, h4, h5, h6, h7, h8]

theorem selLoop_keys (n : Nat) (ks : List Key) (hk : ∀ k ∈ ks, k.ok = true)
    (rest : List Char) (st : SelState) :
    selLoop n (encodeKeys ks ++ rest) st = selLoop n rest (runKeys n ks st) := by
  induction ks generalizing st with
  | nil => simp [encodeKeys, runKeys]
  | cons k ks ih =>
    have hkk : k.ok = true := hk k (List.mem_cons_self k ks)
    have hks : ∀ k' ∈ ks, k'.ok = true := fun k' h => hk k' (List.mem_cons_of_mem k h)
    simp only [encodeKeys, List.append_assoc]
    rw [selLoop_key n k hkk _ st, ih hks]
    simp [runKeys]

theorem selLoop_confirm (n : Nat) (c : Char) (hc : c = '\r' ∨ c = '\n')
    (rest : List Char) (st : SelState) :
    selLoop n (c :: rest) st = .confirmed st.selected := by
  rw [selLoop.eq_def]
  rcases hc with rfl | rfl <;> simp

theorem selLoop_cancel (n : Nat) (c : Char) (hc : c = 'q' ∨ c = '\x03')
    (rest : List Char) (st : SelState) :
    selLoop n (c :: rest) st = .cancelled := by
  rw [selLoop.eq_def]
  rcases hc with rfl | rfl <;> simp

theorem toggleAt_comm (i j : Nat) (s : List Bool) :
    toggleAt i (toggleAt j s) = toggleAt j (toggleAt i s) := by
  rcases eq_or_ne i j with rfl | hij
  · rfl
  · simp only [toggleAt, List.getD_eq_getElem?_getD, List.getElem?_set_ne hij,
      List.getElem?_set_ne hij.symm]
    exact List.set_comm _ _ _ hij.symm

/-- C1: for every item sequence and every finite sequence of key events ending
in Enter, `interactive_select` returns exactly the items whose `selected` flag
is true at confirmation time, in original discovery order (`selectedItems` is
the order-preserving filter of line 145), and the final flag vector — hence the
result — is independent of the order in which toggles were applied (toggling is
a commutative family of involutions, so any permutation of a toggle sequence
yields the same flags). -/
theorem confirmed_selection_correct (templates : List TemplateItem) (ks : List Key)
    (hk : ∀ k ∈ ks, k.ok = true) (is1 is2 : List Nat) (hperm : is1.Perm is2)
    (sel0 : List Bool) :
    interactive_select templates (encodeKeys ks ++ ['\r']) =
      some (selectedItems templates
        (runKeys templates.length ks (initState templates)).selected)
    ∧ is1.foldl (fun s i => toggleAt i s) sel0
        = is2.foldl (fun s i => toggleAt i s) sel0 := by
  constructor
  · unfold interactive_select
    rw [selLoop_keys _ _ hk, selLoop_confirm _ _ (Or.inl rfl)]
  · exact hperm.foldl_eq' (fun x _ y _ z => toggleAt_comm y x z) sel0

def itemA : TemplateItem := ⟨"a.md", ['A'], [], none, false⟩

def itemB : TemplateItem := ⟨"b-base.md", ['B'], [], none, true⟩

theorem confirmed_selection_correct_witness :
    interactive_select [itemA, itemB] (encodeKeys [Key.space, Key.keyJ, Key.space] ++ ['\r']) =
      some (selectedItems [itemA, itemB]
        (runKeys [itemA, itemB].length [Key.space, Key.keyJ, Key.space]
          (initState [itemA, itemB])).selected)
    ∧ [0, 1].foldl (fun s i => toggleAt i s) [false, false]
        = [1, 0].foldl (fun s i => toggleAt i s) [false, false] :=
  confirmed_selection_correct [itemA, itemB] [Key.space, Key.keyJ, Key.space]
    (by decide) [0, 1] [1, 0] (by decide) [false, false]

theorem emod_add_one (n : Nat) (a : Int) : (a % n + 1) % n = (a + 1) % n := by
  conv_rhs => rw [Int.add_emod]
  conv_lhs => rw [Int.add_emod]
  simp

theorem emod_sub_one (n : Nat) (a : Int) : (a % n - 1) % n = (a - 1) % n := by
  conv_rhs => rw [Int.sub_emod]
  conv_lhs => rw [Int.sub_emod]
  simp

theorem downMove_iterate (n : Nat) (c : Int) (h0 : 0 ≤ c) (hc : c < (n : Int)) :
    ∀ k : Nat, (downMove n)^[k] c = (c + (k : Int)) % (n : Int) := by
  intro k
  induction k with
  | zero => simpa using (Int.emod_eq_of_lt h0 hc).symm
  | succ k ih =>
    rw [Function.iterate_succ_apply', ih, downMove, emod_add_one]
    push_cast
    ring_nf

theorem upMove_iterate (n : Nat) (c : Int) (h0 : 0 ≤ c) (hc : c < (n : Int)) :
    ∀ k : Nat, (upMove n)^[k] c = (c - (k : Int)) % (n : Int) := by
  intro k
  induction k with
  | zero => simpa using (Int.emod_eq_of_lt h0 hc).symm
  | succ k ih =>
    rw [Function.iterate_succ_apply', ih, upMove, emod_sub_one]
    push_cast
    ring_nf

/-- C3: with `N ≥ 1` items and cursor `0 ≤ c < N`, a down-move sets the cursor
to `(c + 1) mod N`, an up-move sets it to `(c − 1 + N) mod N`, and `N`
down-moves (or `N` up-moves) in a row return the cursor to its start. -/
theorem cursor_moves_cyclic (n : Nat) (c : Int) (hn : 1 ≤ n) (h0 : 0 ≤ c)
    (hc : c < (n : Int)) :
    downMove n c = (c + 1) % (n : Int)
    ∧ upMove n c = (c - 1 + (n : Int)) % (n : Int)
    ∧ (downMove n)^[n] c = c
    ∧ (upMove n)^[n] c = c := by
  refine ⟨rfl, ?_, ?_, ?_⟩
  · rw [upMove, Int.add_emod_self]
  · rw [downMove_iterate n c h0 hc n, Int.add_emod]
    simp [Int.emod_eq_of_lt h0 hc]
  · rw [upMove_iterate n c h0 hc n, Int.sub_emod]
    simp [Int.emod_eq_of_lt h0 hc]

theorem cursor_moves_cyclic_witness :
    downMove 3 1 = (1 + 1) % (3 : Int)
    ∧ upMove 3 1 = (1 - 1 + (3 : Int)) % (3 : Int)
    ∧ (downMove 3)^[3] 1 = 1
    ∧ (upMove 3)^[3] 1 = 1 :=
  cursor_moves_cyclic 3 1 (by decide) (by decide) (by decide)

/-- C4: after any sequence of toggles and cursor moves, pressing the quit key
`q` (or Ctrl-C) makes `interactive_select` return the empty list, regardless of
the selection flags at cancellation time. -/
theorem cancel_returns_empty (templates : List TemplateItem) (ks : List Key)
    (hk : ∀ k ∈ ks, k.ok = true) :
    interactive_select templates (encodeKeys ks ++ ['q']) = some []
    ∧ interactive_select templates (encodeKeys ks ++ ['\x03']) = some [] := by
  constructor
  · unfold interactive_select
    rw [selLoop_keys _ _ hk, selLoop_cancel _ _ (Or.inl rfl)]
  · unfold interactive_select
    rw [selLoop_keys _ _ hk, selLoop_cancel _ _ (Or.inr rfl)]

theorem cancel_returns_empty_witness :
    interactive_select [itemA, itemB]
      (encodeKeys [Key.space, Key.keyJ, Key.space] ++ ['q']) = some []
    ∧ interactive_select [itemA, itemB]
      (encodeKeys [Key.space, Key.keyJ, Key.space] ++ ['\x03']) = some [] :=
  cancel_returns_empty [itemA, itemB] [Key.space, Key.keyJ, Key.space] (by decide)

/-- C9: each single key event changes at most one component of the state: the
four move events leave every selection flag unchanged; Space leaves the cursor
and every other flag unchanged while toggling the flag under the cursor; a
byte outside the recognized alphabet changes nothing at all. -/
theorem single_key_frame (n : Nat) (st : SelState) (c : Char)
    (hc : (['\x1b', 'k', 'j', ' ', '\r', '\n', 'q', '\x03'].contains c) = false)
    (hcur : st.current.toNat < st.selected.length) :
    ((Key.upArrow.apply n st).selected = st.selected
      ∧ (Key.keyK.apply n st).selected = st.selected
      ∧ (Key.downArrow.apply n st).selected = st.selected
      ∧ (Key.keyJ.apply n st).selected = st.selected)
    ∧ ((Key.space.apply n st).current = st.current
      ∧ (∀ i, i ≠ st.current.toNat →
          (Key.space.apply n st).selected.getD i false = st.selected.getD i false)
      ∧ (Key.space.apply n st).selected.getD st.current.toNat false
          = ! st.selected.getD st.current.toNat false)
    ∧ (∀ rest, selLoop n (c :: rest) st = selLoop n rest st) := by
  refine ⟨⟨rfl, rfl, rfl, rfl⟩, ⟨rfl, ?_, ?_⟩, ?_⟩
  · intro i hi
    simp only [Key.apply, toggleAt, List.getD_eq_getElem?_getD,
      List.getElem?_set_ne (fun h => hi h.symm)]
  · simp only [Key.apply, toggleAt, List.getD_eq_getElem?_getD,
      List.getElem?_set_self hcur, Option.getD_some]
  · intro rest
    have hok : (Key.other c).ok = true := by
      simp only [Key.ok, hc, Bool.not_false]
    have := selLoop_key n (Key.other c) hok rest st
    simpa [Key.bytes, Key.apply] using this

theorem single_key_frame_witness :
    ((Key.upArrow.apply 2 ⟨0, [false, true]⟩).selected = (⟨0, [false, true]⟩ : SelState).selected
      ∧ (Key.keyK.apply 2 ⟨0, [false, true]⟩).selected = (⟨0, [false, true]⟩ : SelState).selected
      ∧ (Key.downArrow.apply 2 ⟨0, [false, true]⟩).selected = (⟨0, [false, true]⟩ : SelState).selected
      ∧ (Key.keyJ.apply 2 ⟨0, [false, true]⟩).selected = (⟨0, [false, true]⟩ : SelState).selected)
    ∧ ((Key.space.apply 2 ⟨0, [false, true]⟩).current = (⟨0, [false, true]⟩ : SelState).current
      ∧ (∀ i, i ≠ (⟨0, [false, true]⟩ : SelState).current.toNat →
          (Key.space.apply 2 ⟨0, [false, true]⟩).selected.getD i false
            = (⟨0, [false, true]⟩ : SelState).selected.getD i false)
      ∧ (Key.space.apply 2 ⟨0, [false, true]⟩).selected.getD
            (⟨0, [false, true]⟩ : SelState).current.toNat false
          = ! (⟨0, [false, true]⟩ : SelState).selected.getD
              (⟨0, [false, true]⟩ : SelState).current.toNat false)
    ∧ (∀ rest, selLoop 2 ('x' :: rest) ⟨0, [false, true]⟩
        = selLoop 2 rest ⟨0, [false, true]⟩) :=
  single_key_frame 2 ⟨0, [false, true]⟩ 'x' (by decide) (by decide)

/-! ## Merge ordering (`merge_templates`, lines 154-155) -/

/-- Lexicographic comparison of Python's tuple sort key: booleans with
`False < True`, then string order on the relative path. -/
def keyLe (a b : Bool × String) : Bool :=
  (!a.1 && b.1) || (a.1 == b.1 && decide (a.2 ≤ b.2))

/-- The sort key `(not t["is_base"], t["rel_path"])` of line 155. -/
def mergeKey (t : TemplateItem) : Bool × String := (!t.is_base, t.rel_path)

/-- `sorted(templates, key=lambda t: (not t["is_base"], t["rel_path"]))`
(line 155); Python's `sorted` is a stable merge sort. -/
def mergeOrder (ts : List TemplateItem) : List TemplateItem :=
  ts.mergeSort (fun a b => keyLe (mergeKey a) (mergeKey b))

theorem keyLe_trans (a b c : TemplateItem)
    (h1 : keyLe (mergeKey a) (mergeKey b) = true)
    (h2 : keyLe (mergeKey b) (mergeKey c) = true) :
    keyLe (mergeKey a) (mergeKey c) = true := by
  simp only [keyLe, mergeKey, Bool.or_eq_true, Bool.and_eq_true, beq_iff_eq,
    decide_eq_true_eq, Bool.not_eq_true'] at h1 h2 ⊢
  cases hab : a.is_base <;> cases hbb : b.is_base <;> cases hcb : c.is_base <;>
    simp_all <;> exact le_trans h1 h2

theorem keyLe_total (a b : TemplateItem) :
    (keyLe (mergeKey a) (mergeKey b) || keyLe (mergeKey b) (mergeKey a)) = true := by
  simp only [keyLe, mergeKey, Bool.or_eq_true, Bool.and_eq_true, beq_iff_eq,
    decide_eq_true_eq, Bool.not_eq_true']
  cases hab : a.is_base <;> cases hbb : b.is_base <;> simp_all
  · exact le_total a.rel_path.data b.rel_path.data
  · exact le_total a.rel_path.data b.rel_path.data

theorem keyLe_imp (a b : TemplateItem) (h : keyLe (mergeKey a) (mergeKey b) = true) :
    (b.is_base = true → a.is_base = true)
    ∧ (a.is_base = b.is_base → a.rel_path ≤ b.rel_path) := by
  simp only [keyLe, mergeKey, Bool.or_eq_true, Bool.and_eq_true, beq_iff_eq,
    decide_eq_true_eq, Bool.not_eq_true'] at h
  cases hab : a.is_base <;> cases hbb : b.is_base <;> simp_all

/-- C2: the merge processes the selected items sorted by the key
`(not is_base, rel_path)`: the output is a permutation of the input in which
every base template precedes every non-base template and, within each of the
two groups, items are ordered by relative path ascending. -/
theorem merge_order_correct (ts : List TemplateItem) (hne : ts ≠ []) :
    (mergeOrder ts).Perm ts
    ∧ (mergeOrder ts).Pairwise (fun a b =>
        (b.is_base = true → a.is_base = true)
        ∧ (a.is_base = b.is_base → a.rel_path ≤ b.rel_path)) := by
  constructor
  · exact List.mergeSort_perm ts _
  · have hs := @List.sorted_mergeSort TemplateItem
      (fun a b => keyLe (mergeKey a) (mergeKey b))
      (fun a b c => keyLe_trans a b c) (fun a b => keyLe_total a b) ts
    exact hs.imp (fun hab => keyLe_imp _ _ hab)

theorem merge_order_correct_witness :
    (mergeOrder [itemA, itemB]).Perm [itemA, itemB]
    ∧ (mergeOrder [itemA, itemB]).Pairwise (fun a b =>
        (b.is_base = true → a.is_base = true)
        ∧ (a.is_base = b.is_base → a.rel_path ≤ b.rel_path)) :=
  merge_order_correct [itemA, itemB] (by decide)

/-! ## Content filtering (`merge_templates`, lines 169-193)

Content is modelled as its sequence of code points (`List Char`), lines as
`List (List Char)`; `content.split("\n")` is `List.splitOn '\n'`. -/

/-- Python `str.strip()`: drop whitespace from both ends. -/
def stripChars (l : List Char) : List Char :=
  ((l.dropWhile Char.isWhitespace).reverse.dropWhile Char.isWhitespace).reverse

/-- The per-item filtering loop of lines 173-183, with the `skip_next_empty`
flag as first argument. -/
def filterLines (skip : Bool) : List (List Char) → List (List Char)
  | [] => []
  | line :: rest =>
    if "> **Extends:**".data.isPrefixOf line || "> This extension".data.isPrefixOf line then
      filterLines true rest
    else if skip && (stripChars line).isEmpty then
      filterLines false rest
    else if skip && ">".data.isPrefixOf line then
      filterLines true rest
    else
      line :: filterLines false rest

/-- Lines 169, 185 and 193: split into lines, filter, re-join, strip. -/
def filteredContent (content : List Char) : List Char :=
  stripChars (List.intercalate "\n".data (filterLines false (content.splitOn '\n')))

/-- C5: filtering the four-line content
`"> **Extends:** base.md\n> This extension adds X.\n\nBody text"` and
trimming the result yields exactly `"Body text"`. -/
theorem filter_example_removes_block :
    filteredContent ("> **Extends:** base.md\n> This extension adds X.\n\nBody text").data
      = "Body text".data := by
  decide

theorem filterLines_id (lines : List (List Char))
    (h : ∀ l ∈ lines, "> **Extends:**".data.isPrefixOf l = false
        ∧ "> This extension".data.isPrefixOf l = false) :
    filterLines false lines = lines := by
  induction lines with
  | nil => rfl
  | cons l rest ih =>
    obtain ⟨h1, h2⟩ := h l (List.mem_cons_self _ _)
    rw [filterLines.eq_def]
    simp [h1, h2, ih (fun x hx => h x (List.mem_cons_of_mem _ hx))]

/-- C10: the extends filter is the identity on marker-free content: when no
line of the content starts with `"> **Extends:**"` or `"> This extension"`,
the filtered line sequence is the original line sequence (before the final
trim). -/
theorem filter_identity_on_marker_free (content : List Char)
    (h : ∀ l ∈ content.splitOn '\n',
        "> **Extends:**".data.isPrefixOf l = false
        ∧ "> This extension".data.isPrefixOf l = false) :
    filterLines false (content.splitOn '\n') = content.splitOn '\n' :=
  filterLines_id _ h

theorem filter_identity_on_marker_free_witness :
    filterLines false (("# Title\nhello\n> quote\nworld").data.splitOn '\n')
      = ("# Title\nhello\n> quote\nworld").data.splitOn '\n' :=
  filter_identity_on_marker_free ("# Title\nhello\n> quote\nworld").data (by decide)

/-! ## Header scanning (`get_all_templates`, lines 26-43) -/

/-- The metadata extracted from a file's first lines. -/
structure HeaderInfo where
  title : List Char
  description : List Char
  extendsNote : Option (List Char)
deriving DecidableEq

/-- `line[:80]` plus the ellipsis marker of lines 40-42. -/
def descOf (line : List Char) : List Char :=
  line.take 80 ++ (if 80 < line.length then "...".data else [])

/-- The third condition of the header loop (line 39): the stripped line is
non-empty and starts with neither `#` nor `>`. -/
def isDescLine (line : List Char) : Bool :=
  !line.isEmpty && !("#".data.isPrefixOf line) && !(">".data.isPrefixOf line)

/-- The header-scanning loop of lines 33-43; the description branch ends the
scan (`break`). -/
def scanLines (info : HeaderInfo) : List (List Char) → HeaderInfo
  | [] => info
  | l :: rest =>
    let line := stripChars l
    if "# ".data.isPrefixOf line then
      scanLines { info with title := stripChars (line.drop 2) } rest
    else if "> **Extends:**".data.isPrefixOf line then
      scanLines { info with extendsNote := some line } rest
    else if isDescLine line then
      { info with description := descOf line }
    else
      scanLines info rest

/-- `lines[:10]` (line 33) with the initial metadata of lines 27-29. -/
def scanHeader (stem : List Char) (lines : List (List Char)) : HeaderInfo :=
  scanLines ⟨stem, [], none⟩ (lines.take 10)

theorem prefix_mono {p q line : List Char} (hpq : p <+: q)
    (h : q.isPrefixOf line = true) : p.isPrefixOf line = true := by
  rw [List.isPrefixOf_iff_prefix] at h ⊢
  exact hpq.trans h

theorem scanLines_desc (info : HeaderInfo) (l : List Char) (rest : List (List Char))
    (hl : isDescLine (stripChars l) = true) :
    scanLines info (l :: rest) = { info with description := descOf (stripChars l) } := by
  have hl' := hl
  simp only [isDescLine, Bool.and_eq_true, Bool.not_eq_true'] at hl'
  obtain ⟨⟨hne, hh⟩, hg⟩ := hl'
  have hh2 : "# ".data.isPrefixOf (stripChars l) = false := by
    cases hcase : "# ".data.isPrefixOf (stripChars l)
    · rfl
    · exact absurd (@prefix_mono "#".data "# ".data (stripChars l) (by decide) hcase)
        (by simp [hh])
  have hg2 : "> **Extends:**".data.isPrefixOf (stripChars l) = false := by
    cases hcase : "> **Extends:**".data.isPrefixOf (stripChars l)
    · rfl
    · exact absurd (@prefix_mono ">".data "> **Extends:**".data (stripChars l)
        (by decide) hcase) (by simp [hg])
  rw [scanLines.eq_def]
  simp [hh2, hg2, hl]

theorem scanLines_cons_nondesc (info : HeaderInfo) (p : List Char)
    (hp : isDescLine (stripChars p) = false) :
    ∃ info2 : HeaderInfo,
      ∀ rest, scanLines info (p :: rest) = scanLines info2 rest := by
  by_cases h1 : "# ".data.isPrefixOf (stripChars p) = true
  · refine ⟨{ info with title := stripChars ((stripChars p).drop 2) }, fun rest => ?_⟩
    rw [scanLines.eq_def]
    simp [h1]
  · by_cases h2 : "> **Extends:**".data.isPrefixOf (stripChars p) = true
    · refine ⟨{ info with extendsNote := some (stripChars p) }, fun rest => ?_⟩
      rw [scanLines.eq_def]
      simp [h1, h2]
    · refine ⟨info, fun rest => ?_⟩
      rw [scanLines.eq_def]
      simp [h1, h2, hp]

theorem scanLines_stops (pre : List (List Char))
    (hpre : ∀ p ∈ pre, isDescLine (stripChars p) = false)
    (l : List Char) (hl : isDescLine (stripChars l) = true)
    (post : List (List Char)) (info : HeaderInfo) :
    scanLines info (pre ++ l :: post) = scanLines info (pre ++ [l])
    ∧ (scanLines info (pre ++ l :: post)).description = descOf (stripChars l) := by
  induction pre generalizing info with
  | nil =>
    simp only [List.nil_append]
    rw [scanLines_desc info l post hl, scanLines_desc info l [] hl]
    exact ⟨rfl, rfl⟩
  | cons p pre ih =>
    have hp : isDescLine (stripChars p) = false := hpre p (List.mem_cons_self _ _)
    have hpre' : ∀ q ∈ pre, isDescLine (stripChars q) = false :=
      fun q hq => hpre q (List.mem_cons_of_mem _ hq)
    obtain ⟨info2, hstep⟩ := scanLines_cons_nondesc info p hp
    rw [List.cons_append, List.cons_append, hstep, hstep]
    exact ih hpre' info2

/-- C8: the stored description comes from the first of the first 10 (trimmed)
lines that is non-empty and starts with neither `#` nor `>`; it is that line
truncated to its first 80 characters, with `"..."` appended exactly when the
line is longer than 80 characters; and the header scan stops there — lines
after it do not affect the result. -/
theorem description_extraction (stem : List Char) (pre post : List (List Char))
    (l : List Char)
    (hpre : ∀ p ∈ pre, isDescLine (stripChars p) = false)
    (hl : isDescLine (stripChars l) = true)
    (hlen : pre.length + 1 ≤ 10) :
    (scanHeader stem (pre ++ l :: post)).description = descOf (stripChars l)
    ∧ scanHeader stem (pre ++ l :: post) = scanHeader stem (pre ++ [l])
    ∧ ((stripChars l).length ≤ 80 →
        (scanHeader stem (pre ++ l :: post)).description = stripChars l)
    ∧ (80 < (stripChars l).length →
        (scanHeader stem (pre ++ l :: post)).description
          = (stripChars l).take 80 ++ "...".data) := by
  have hpl : pre.length ≤ 10 := by omega
  have htake : (pre ++ l :: post).take 10 = pre ++ l :: post.take (10 - pre.length - 1) := by
    rw [List.take_append_eq_append_take, List.take_of_length_le hpl,
      List.take_cons (by omega)]
  have htake1 : (pre ++ [l]).take 10 = pre ++ [l] := by
    apply List.take_of_length_le
    simpa using hlen
  unfold scanHeader
  rw [htake, htake1]
  obtain ⟨heq, hdesc⟩ :=
    scanLines_stops pre hpre l hl (post.take (10 - pre.length - 1)) ⟨stem, [], none⟩
  refine ⟨hdesc, heq, ?_, ?_⟩
  · intro hle
    rw [hdesc, descOf, if_neg (by omega), List.append_nil, List.take_of_length_le hle]
  · intro hgt
    rw [hdesc, descOf, if_pos hgt]

theorem description_extraction_witness :
    (scanHeader "t".data (["# Title".data] ++ "Hello world".data :: ["rest".data])).description
      = descOf (stripChars "Hello world".data)
    ∧ scanHeader "t".data (["# Title".data] ++ "Hello world".data :: ["rest".data])
        = scanHeader "t".data (["# Title".data] ++ ["Hello world".data])
    ∧ ((stripChars "Hello world".data).length ≤ 80 →
        (scanHeader "t".data
          (["# Title".data] ++ "Hello world".data :: ["rest".data])).description
          = stripChars "Hello world".data)
    ∧ (80 < (stripChars "Hello world".data).length →
        (scanHeader "t".data
          (["# Title".data] ++ "Hello world".data :: ["rest".data])).description
          = (stripChars "Hello world".data).take 80 ++ "...".data) :=
  description_extraction "t".data ["# Title".data] ["rest".data] "Hello world".data
    (by decide) (by decide) (by decide)

/-! ## Template discovery (`get_all_templates`, lines 19-54, and `main`,
lines 234-238)

The directory tree is abstracted: `missing` models a root that does not exist
or is unreadable, in which case `Path.rglob` yields no entries and raises
nothing (pathlib swallows the underlying OS error); `present files` gives the
`.md` files as (relative path, lines). -/

inductive FsModel where
  | missing
  | present (files : List (String × List (List Char)))
deriving DecidableEq

/-- `sorted(TEMPLATES_DIR.rglob("*.md"))` (line 23). -/
def rglobMd : FsModel → List (String × List (List Char))
  | .missing => []
  | .present files => files.mergeSort (fun a b => decide (a.1 ≤ b.1))

/-- The last component of a relative path (Python `Path.name`). -/
def nameOf (relPath : String) : String := (relPath.splitOn "/").getLastD relPath

/-- `get_all_templates` (lines 19-54) over the directory model: scan each
file's header for title, description and extends line, mark `is_base` when the
filename contains "base" case-insensitively. -/
def get_all_templates (fs : FsModel) : List TemplateItem :=
  (rglobMd fs).map fun f =>
    let info := scanHeader ((nameOf f.1).dropRight 3).data f.2
    { rel_path := f.1
      title := info.title
      description := info.description
      extendsNote := info.extendsNote
      is_base := decide ("base".data <:+: ((nameOf f.1).toLower).data) }

/-- Modelled from the spec: the §4.1 contract "`scan(rootDir) -> ordered
sequence of TemplateItem`, fails with `DiscoveryError` if rootDir does not
exist or is unreadable".  The code defines no `DiscoveryError` anywhere, so
this spec-side scan exists only to be compared with `get_all_templates`. -/
def scanSpec (fs : FsModel) : Except Unit (List TemplateItem) :=
  match fs with
  | .missing => .error ()
  | .present _ => .ok (get_all_templates fs)

/-- Outcome of the `go` branch of `main`. -/
inductive GoOutcome where
  | exitNonzero
  | interactive (ts : List TemplateItem)
deriving DecidableEq

/-- The `go` branch of `main` (lines 234-240): an empty scan prints
"No templates found" and exits with status 1; otherwise the interactive
selection runs on the scanned items. -/
def mainGo (fs : FsModel) : GoOutcome :=
  let templates := get_all_templates fs
  if templates.isEmpty then .exitNonzero else .interactive templates

/-- C7 counterexample: on a missing/unreadable root the scan does not fail —
`get_all_templates` is total and returns the empty list there, diverging from
the spec-side `scanSpec`, which fails. -/
theorem scan_missing_counterexample :
    get_all_templates FsModel.missing = []
    ∧ scanSpec FsModel.missing ≠ Except.ok (get_all_templates FsModel.missing) :=
  ⟨rfl, fun h => by simp [scanSpec] at h⟩

/-- C7 amended: for a root directory that does not exist or is unreadable, the
template scan succeeds and returns the empty sequence (no `DiscoveryError` is
raised — none exists in the code), and the `go` command then takes the
"No templates found" branch and exits with nonzero status. -/
theorem scan_missing_empty_and_exit_nonzero :
    get_all_templates FsModel.missing = []
    ∧ mainGo FsModel.missing = GoOutcome.exitNonzero :=
  ⟨rfl, rfl⟩

/-! ## Terminal raw-mode session (`interactive_select`, lines 102-139)

The terminal attribute blob captured by `termios.tcgetattr` is abstracted to a
`Nat`; `tty.setraw` is an arbitrary transformation of it. The byte stream may
raise an exception at any read, modelling an error inside the `try` block. -/

/-- One event of the raw-input stream: a byte delivered by
`sys.stdin.read(1)`, or an exception raised while reading or rendering. -/
inductive ReadEvent where
  | byte (c : Char)
  | raises
deriving DecidableEq

/-- Outcome of the read loop when input can raise. -/
inductive TermLoopResult where
  | confirmed (sel : List Bool)
  | cancelled
  | raised
  | blocked
deriving DecidableEq

/-- The read loop of lines 112-137 over a stream that may raise mid-read; an
exception anywhere inside the `try` body aborts the loop as `raised`. -/
def selLoopE (n : Nat) : List ReadEvent → SelState → TermLoopResult
  | [], _ => .blocked
  | .raises :: _, _ => .raised
  | .byte c :: rest, st =>
    if c = '\x1b' then
      match rest with
      | [] => .blocked
      | .raises :: _ => .raised
      | .byte c2 :: rest2 =>
        if c2 = '[' then
          match rest2 with
          | [] => .blocked
          | .raises :: _ => .raised
          | .byte c3 :: rest3 =>
            if c3 = 'A' then
              selLoopE n rest3 { st with current := upMove n st.current }
            else if c3 = 'B' then
              selLoopE n rest3 { st with current := downMove n st.current }
            else
              selLoopE n rest3 st
        else
          selLoopE n rest2 st
    else if c = 'k' then
      selLoopE n rest { st with current := upMove n st.current }
    else if c = 'j' then
      selLoopE n rest { st with current := downMove n st.current }
    else if c = ' ' then
      selLoopE n rest { st with selected := toggleAt st.current.toNat st.selected }
    else if c = '\r' ∨ c = '\n' then
      .confirmed st.selected
    else if c = 'q' ∨ c = '\x03' then
      .cancelled
    else
      selLoopE n rest st

/-- `termios.tcsetattr(fd, termios.TCSADRAIN, old_settings)` (line 139):
whatever the attributes currently are, they become the saved ones. -/
def tcsetattr (_current old_settings : Nat) : Nat := old_settings

/-- `interactive_select` with the terminal session explicit: line 107 captures
`old_settings`, line 110 switches the attributes to raw via `rawAttrs`, and
the `finally` of lines 138-139 restores `old_settings` on every exit of the
`try` block — `break` on Enter, `return []` on quit, or a propagating
exception.  The second component is the terminal attribute state after the
function returns or re-raises; while the loop is still `blocked` on input the
terminal remains in raw mode. -/
def interactive_select_term (rawAttrs : Nat → Nat) (templates : List TemplateItem)
    (events : List ReadEvent) (initialAttrs : Nat) : TermLoopResult × Nat :=
  let old_settings := initialAttrs
  let inRaw := rawAttrs initialAttrs
  match selLoopE templates.length events (initState templates) with
  | .confirmed sel => (.confirmed sel, tcsetattr inRaw old_settings)
  | .cancelled => (.cancelled, tcsetattr inRaw old_settings)
  | .raised => (.raised, tcsetattr inRaw old_settings)
  | .blocked => (.blocked, inRaw)

/-- C6: on every exit path of the interactive loop — confirmation, quit or
interrupt, or an exception raised inside the loop — the attribute state
captured at acquisition is restored before `interactive_select` returns or
propagates the error (the `try`/`finally` of lines 109-139). -/
theorem terminal_restored_on_exit (rawAttrs : Nat → Nat)
    (templates : List TemplateItem) (events : List ReadEvent) (a0 : Nat)
    (h : (interactive_select_term rawAttrs templates events a0).1 ≠ .blocked) :
    (interactive_select_term rawAttrs templates events a0).2 = a0 := by
  unfold interactive_select_term at h ⊢
  rcases hres : selLoopE templates.length events (initState templates) with
    sel | _ | _ | _ <;> simp [hres, tcsetattr] at h ⊢

theorem terminal_restored_on_exit_witness :
    (interactive_select_term (fun a => a + 1) [itemA] [ReadEvent.raises] 5).2 = 5 :=
  terminal_restored_on_exit (fun a => a + 1) [itemA] [ReadEvent.raises] 5 (by decide)

end PromptMerge
